import Mathlib

/-!
A shallow embedding of the mock-clock core of the blugnu/time Go package
(mock clock engine, timer/ticker state machine and registry, deadline
context), together with theorems settling the specification claims.

Modelling conventions:
  * instants and durations are integers (nanoseconds); `time.Time.After`
    becomes `>`, `time.Time.Add` becomes `+`;
  * the Go structs hold mutable state behind a mutex; here the whole clock
    is a value threaded through the operations, and the mock tickable
    structs (shared by pointer between the registry lists and the caller's
    wrapper in Go) are identified by their `tickerId` and live in exactly
    one of the two registry lists;
  * a channel send / callback invocation dispatched in a goroutine is
    recorded as an `Event` appended to `events` (the goroutine also writes
    `clock.now`, which is modelled faithfully);
  * Go panics are modelled as explicit error values returned next to the
    state reached at the panic;
  * the unbounded loops of the Go code (`for m.tick(t) {}` in AdvanceTo and
    the drop-ticks loop in ticker.tick) can genuinely diverge, e.g. for a
    zero-period ticker, so they take a fuel argument and return `none` when
    the fuel runs out;
  * fields that only matter for real-time behaviour (`updated`, `yield`,
    `loc`) are omitted: `time.Sleep(m.yield)` has no effect on the modelled
    state, and `t.In(m.loc)` does not change the instant.
-/

namespace BlugnuTime

/-- State of a mock tickable, mirroring `tickerState` in tickables.go. -/
inductive TickerState
  | tsActive
  | tsExpired
  | tsStopped
deriving DecidableEq, Repr

/-- Which concrete implementation backs a registry entry: a timer created
with a callback (`AfterFunc`), a timer with a delivery channel
(`NewTimer`/`After`), or a ticker. -/
inductive TickKind
  | timerFn
  | timerChan
  | tickerK
deriving DecidableEq, Repr

/-- One mock timer or ticker as held in the clock registry; merges the
fields of the Go `timer` and `ticker` structs (`d` is the ticker period,
unused for timers). -/
structure Tickable where
  tickerId : Nat
  kind : TickKind
  d : Int
  next : Int
  state : TickerState
deriving DecidableEq, Repr

/-- A delivery dispatched by a tickable: the Go code sends `fireAt` on the
tickable's channel (or invokes its callback) in a detached goroutine. -/
structure Event where
  tickerId : Nat
  fireAt : Int
deriving DecidableEq, Repr

/-- The panic values of the package (errors.go). -/
inductive MErr
  | clockAlreadyExists
  | clockIsRunning
  | clockNotRunning
  | notADelorean
  | clockLocked
  | invalidState
  | invalidTransition
  | nonPositiveInterval
  | resetCalledOnUninitialized
deriving DecidableEq, Repr

/-- The mock clock state (struct `mockClock`).  `active` is kept in the
order maintained by the Go code (sorted by next tick time); `inactive`
holds stopped/expired tickables.  `events` records dispatched deliveries
(model-level observation of the channel sends / callback invocations). -/
structure MockClock where
  createdAt : Int
  dropsTicks : Bool
  now : Int
  nStopped : Int
  active : List Tickable
  inactive : List Tickable
  nextTickerId : Nat
  events : List Event
deriving DecidableEq, Repr

/-- Does a registry entry carry the given id (`tickable.id()` comparison)? -/
def tickMatch (id : Nat) (t : Tickable) : Bool := t.tickerId == id

/-- The `tickables.get`: first entry with the given id, if any. -/
def getTick (id : Nat) (l : List Tickable) : Option Tickable :=
  l.find? (tickMatch id)

/-- The `tickables.remove`: drop the first entry with the given id. -/
def removeTick (id : Nat) : List Tickable → List Tickable
  | [] => []
  | t :: ts => if tickMatch id t then ts else t :: removeTick id ts

/-- The `tickables.take`: remove and return the entry with the given id. -/
def takeTick (id : Nat) (l : List Tickable) : List Tickable × Option Tickable :=
  match getTick id l with
  | some t => (removeTick id l, some t)
  | none => (l, none)

/-- Stable insertion of a tickable into a list ordered by next tick time,
using the strict `tickables.Less` comparison (`nextTick().Before`).  A new
entry goes after existing entries with an equal next time, exactly as Go's
`insertionSort` places it. -/
def insertTick (x : Tickable) : List Tickable → List Tickable
  | [] => [x]
  | y :: ys => if x.next < y.next then x :: y :: ys else y :: insertTick x ys

/-- Model of `sort.Sort(m.tickers.active)` with the `tickables.Less`
ordering.  Go's sort only promises a sorted permutation (it is documented
as unstable); this deterministic insertion sort is the algorithm Go itself
runs for slices of fewer than 12 elements and agrees with any correct sort
whenever the next tick times are distinct.  The relational contract of
`sort.Sort` is modelled separately as `sortSortPost`. -/
def sortTicks (l : List Tickable) : List Tickable :=
  l.foldl (fun acc x => insertTick x acc) []

/-- A list ordered (non-strictly) by next tick time: the order established
by `tickables.Less`. -/
def sortedByNext (l : List Tickable) : Prop :=
  l.Chain' (fun a b => a.next ≤ b.next)

/-- The postcondition Go documents for `sort.Sort`: the result is a sorted
permutation of the input; stability on ties is explicitly not promised. -/
def sortSortPost (l l2 : List Tickable) : Prop :=
  l2.Perm l ∧ sortedByNext l2

/-- The tickable registered under `id`, resolving the Go struct pointer
shared between the caller and the registry lists. -/
def MockClock.findTick (m : MockClock) (id : Nat) : Option Tickable :=
  match getTick id m.active with
  | some t => some t
  | none => getTick id m.inactive

/-- Apply `f` to the registered tickable with the given id, in whichever
list holds it (mirrors a field assignment through the Go struct pointer). -/
def MockClock.modifyTick (m : MockClock) (id : Nat) (f : Tickable → Tickable) :
    MockClock :=
  { m with
    active := m.active.map (fun t => if tickMatch id t then f t else t)
    inactive := m.inactive.map (fun t => if tickMatch id t then f t else t) }

/-- The `mockClock.activateTicker`: append to the active list and re-sort. -/
def MockClock.activateTicker (m : MockClock) (t : Tickable) : MockClock :=
  { m with active := sortTicks (m.active ++ [t]) }

/-- The `mockClock.disableTicker`: move a tickable from active to inactive. -/
def MockClock.disableTicker (m : MockClock) (id : Nat) : MockClock :=
  match takeTick id m.active with
  | (rest, some t) => { m with active := rest, inactive := m.inactive ++ [t] }
  | (_, none) => m

/-- The `mockClock.enableTicker`: move a tickable from inactive to active. -/
def MockClock.enableTicker (m : MockClock) (id : Nat) : MockClock :=
  match takeTick id m.inactive with
  | (rest, some t) => MockClock.activateTicker { m with inactive := rest } t
  | (_, none) => m

/-- The `timer.enterState` / `ticker.enterState`, dispatched on the kind of the
registered tickable: no-op when already in the target state, otherwise the
state field is updated and the registry lists follow (a ticker asked to
expire panics with the invalid-transition error, after its state field has
already been overwritten, exactly as in the Go code). -/
def MockClock.enterState (m : MockClock) (id : Nat) (s : TickerState) :
    Option MErr × MockClock :=
  match m.findTick id with
  | none => (none, m)
  | some t =>
    if t.state = s then (none, m)
    else
      let m2 := m.modifyTick id (fun u => { u with state := s })
      match s with
      | .tsActive => (none, m2.enableTicker id)
      | .tsStopped => (none, m2.disableTicker id)
      | .tsExpired =>
        match t.kind with
        | .tickerK => (some .invalidTransition, m2)
        | _ => (none, m2.disableTicker id)

/-- The `timer.tick(now)`: fire iff active and due; the timer expires and the
delivery (channel send or callback) is dispatched carrying `next`, the
goroutine also assigning `clock.now = t.next`. -/
def MockClock.timerTick (m : MockClock) (id : Nat) (now : Int) :
    Bool × MockClock :=
  match m.findTick id with
  | none => (false, m)
  | some t =>
    if t.state ≠ .tsActive ∨ now < t.next then (false, m)
    else
      let m2 := (m.enterState id .tsExpired).2
      (true, { m2 with now := t.next, events := m2.events ++ [⟨id, t.next⟩] })

/-- The drop-ticks loop of `ticker.tick`: keep advancing `next` by the
period while it does not lie after `now`, remembering the last elapsed
boundary.  Diverges in Go when the period is not positive, hence the fuel. -/
def dropLoop (p now : Int) : Nat → Int → Int → Option (Int × Int)
  | 0, a, next => if next ≤ now then none else some (a, next)
  | fuel + 1, a, next =>
    if next ≤ now then dropLoop p now fuel next (next + p) else some (a, next)

/-- The `ticker.tick(now)`: fire iff active and due; the fire time starts as
`next`, `next` advances by one period, and with drop-ticks enabled it is
further advanced past every elapsed boundary.  The delivery goroutine
assigns `clock.now = at` and sends `at`. -/
def MockClock.tickerTick (fuel : Nat) (m : MockClock) (id : Nat) (now : Int) :
    Option (Bool × MockClock) :=
  match m.findTick id with
  | none => some (false, m)
  | some t =>
    if t.state ≠ .tsActive ∨ now < t.next then some (false, m)
    else
      match (if m.dropsTicks then dropLoop t.d now fuel t.next (t.next + t.d)
             else some (t.next, t.next + t.d)) with
      | none => none
      | some (a, nx) =>
        let m2 := m.modifyTick id (fun u => { u with next := nx })
        some (true, { m2 with now := a, events := m2.events ++ [⟨id, a⟩] })

/-- Dynamic dispatch of `tickable.tick` on the registered kind. -/
def MockClock.tickDispatch (fuel : Nat) (m : MockClock) (id : Nat) (now : Int) :
    Option (Bool × MockClock) :=
  match m.findTick id with
  | none => some (false, m)
  | some t =>
    match t.kind with
    | .tickerK => m.tickerTick fuel id now
    | _ => some (m.timerTick id now)

/-- The `mockClock.tick(t)`: tick the first active tickable due at or before
`t`, if any, then re-sort the active list; reports whether one was found
(true even if the individual tick declined to fire, as in the Go code). -/
def MockClock.tickStep (fuel : Nat) (m : MockClock) (t : Int) :
    Option (Bool × MockClock) :=
  match m.active with
  | [] => some (false, m)
  | tk :: _ =>
    if t < tk.next then some (false, m)
    else
      match m.tickDispatch fuel tk.tickerId t with
      | none => none
      | some (_, m2) =>
        some (true, { m2 with active := sortTicks m2.active })

/-- The `for m.tick(t) {}` loop of AdvanceTo. -/
def MockClock.runTicks (target : Int) : Nat → MockClock → Option MockClock
  | 0, _ => none
  | fuel + 1, m =>
    match m.tickStep fuel target with
    | none => none
    | some (false, m2) => some m2
    | some (true, m2) => MockClock.runTicks target fuel m2

/-- Result of an advance operation: a panic (with the state reached at the
panic), a completed advance, or fuel exhaustion (the Go loop diverges). -/
inductive AdvanceResult
  | panicked (e : MErr) (m : MockClock)
  | advanced (m : MockClock)
  | outOfFuel
deriving DecidableEq, Repr

/-- The `mockClock.AdvanceTo`: panic with the not-a-time-machine error when the
target lies strictly before the current time, otherwise run all due ticks
and finish with `now = target`. -/
def MockClock.advanceTo (fuel : Nat) (m : MockClock) (t : Int) : AdvanceResult :=
  if t < m.now then .panicked .notADelorean m
  else
    match m.runTicks t fuel with
    | none => .outOfFuel
    | some m2 => .advanced { m2 with now := t }

/-- The `mockClock.AdvanceBy`: advance to `now + d`. -/
def MockClock.advanceBy (fuel : Nat) (m : MockClock) (d : Int) : AdvanceResult :=
  m.advanceTo fuel (m.now + d)

/-- The `NewMockClock()` with no options: epoch, stopped, ticks not dropped. -/
def newMockClock : MockClock :=
  { createdAt := 0, dropsTicks := false, now := 0, nStopped := 1,
    active := [], inactive := [], nextTickerId := 0, events := [] }

/-- The `AtTime` clock option: set the initial time. -/
def atTime (t : Int) (m : MockClock) : MockClock := { m with now := t }

/-- The `DropsTicks` clock option. -/
def dropsTicksOpt (m : MockClock) : MockClock := { m with dropsTicks := true }

/-- The `StartRunning` clock option (calls `Start()` on the freshly built
clock, taking the stop counter from 1 to 0; the real-elapsed-time fold of
`advance()` adds zero at construction time). -/
def startRunning (m : MockClock) : MockClock := { m with nStopped := m.nStopped - 1 }

/-- The `mockClock.newTimer`: register an active timer due at `now + max d 0`;
when `d ≤ 0` it is ticked immediately.  Returns the new timer's id. -/
def MockClock.newTimer (m : MockClock) (d : Int) (hasFn : Bool) :
    Nat × MockClock :=
  let id := m.nextTickerId
  let tk : Tickable :=
    { tickerId := id, kind := if hasFn then .timerFn else .timerChan,
      d := 0, next := m.now + max d 0, state := .tsActive }
  let m2 := { m.activateTicker tk with nextTickerId := id + 1 }
  if d ≤ 0 then (id, (m2.timerTick id m2.now).2) else (id, m2)

/-- The `mockClock.newTicker`: register an active ticker due at `now + max d 0`;
when `d ≤ 0` it is ticked immediately (which, with drop-ticks enabled,
never terminates — hence the fuel).  Returns the new ticker's id. -/
def MockClock.newTicker (fuel : Nat) (m : MockClock) (d : Int) :
    Option (Nat × MockClock) :=
  let id := m.nextTickerId
  let tk : Tickable :=
    { tickerId := id, kind := .tickerK, d := d,
      next := m.now + max d 0, state := .tsActive }
  let m2 := { m.activateTicker tk with nextTickerId := id + 1 }
  if d ≤ 0 then
    match m2.tickerTick fuel id m2.now with
    | none => none
    | some (_, m3) => some (id, m3)
  else some (id, m2)

/-- The `mockClock.Tick(d)`: nil channel (modelled as `none`) when `d ≤ 0`,
otherwise the channel of a new ticker (modelled by its id). -/
def MockClock.tickChan (fuel : Nat) (m : MockClock) (d : Int) :
    Option (Option Nat × MockClock) :=
  if d ≤ 0 then some (none, m)
  else
    match m.newTicker fuel d with
    | none => none
    | some (id, m2) => some (some id, m2)

/-- The `mockClock.resetTimer` wrapped by `timer.reset`: record whether the
timer was active, re-arm it at `now + d`, tick it immediately when `d = 0`,
and finally make it active if it is not. -/
def MockClock.resetTimerOp (m : MockClock) (id : Nat) (d : Int) :
    Bool × MockClock :=
  match m.findTick id with
  | none => (false, m)
  | some t =>
    let wasWaiting := t.state = .tsActive
    let m2 := m.modifyTick id (fun u => { u with next := m.now + d })
    let m3 := if d = 0 then (m2.timerTick id m.now).2 else m2
    let m4 :=
      if (m3.findTick id).map Tickable.state ≠ some .tsActive then
        (m3.enterState id .tsActive).2
      else m3
    (wasWaiting, m4)

/-- The `mockClock.resetTicker` wrapped by `ticker.reset`: panics on a
non-positive interval, otherwise updates the period, re-arms at
`now + max d 0` and enters the active state. -/
def MockClock.resetTickerOp (m : MockClock) (id : Nat) (d : Int) :
    Option MErr × MockClock :=
  if d ≤ 0 then (some .nonPositiveInterval, m)
  else
    let m2 := m.modifyTick id (fun u => { u with d := d, next := m.now + max d 0 })
    (none, (m2.enterState id .tsActive).2)

/-- The `timer.stop`: report whether the timer was active and, if so, stop it. -/
def MockClock.stopTimerOp (m : MockClock) (id : Nat) : Bool × MockClock :=
  match m.findTick id with
  | none => (false, m)
  | some t =>
    if t.state = .tsActive then (true, (m.enterState id .tsStopped).2)
    else (false, m)

/-- The `ticker.stop`: stop the ticker when it is active (no report). -/
def MockClock.stopTickerOp (m : MockClock) (id : Nat) : MockClock :=
  match m.findTick id with
  | none => m
  | some t =>
    if t.state = .tsActive then (m.enterState id .tsStopped).2 else m

/-- The `timer.tick` as invoked through the wrapper's possibly-nil mock
reference (`t == nil` returns false without touching any state). -/
def MockClock.timerTickRef (m : MockClock) (r : Option Nat) (now : Int) :
    Bool × MockClock :=
  match r with
  | none => (false, m)
  | some id => m.timerTick id now

/-- The `ticker.tick` as invoked through the wrapper's possibly-nil mock
reference. -/
def MockClock.tickerTickRef (fuel : Nat) (m : MockClock) (r : Option Nat)
    (now : Int) : Option (Bool × MockClock) :=
  match r with
  | none => some (false, m)
  | some id => m.tickerTick fuel id now

/-- The public `Timer` wrapper struct: the `initialised` flag, the mock
backing reference (`timer` field, present iff mocked) and whether the
embedded stdlib `*time.Timer` is non-nil (it is nil in the zero value). -/
structure TimerW where
  initialised : Bool
  mockId : Option Nat
  hasStd : Bool
deriving DecidableEq, Repr

/-- The public `Ticker` wrapper struct, analogous to `TimerW`. -/
structure TickerW where
  initialised : Bool
  mockId : Option Nat
  hasStd : Bool
deriving DecidableEq, Repr

/-- Outcome of a wrapper operation: a normal return, a package panic, a
runtime nil-pointer dereference (method called through a nil embedded
stdlib pointer), or delegation to the real stdlib implementation (outside
the modelled mock core). -/
inductive WrapOutcome (α : Type)
  | ok (a : α)
  | panicked (e : MErr)
  | nilDeref
  | external
deriving DecidableEq, Repr

/-- The `Timer.Reset`: panics on an uninitialized wrapper, else delegates to
the mock (or the stdlib timer). -/
def TimerW.Reset (m : MockClock) (w : TimerW) (d : Int) :
    WrapOutcome Bool × MockClock :=
  if !w.initialised then (.panicked .resetCalledOnUninitialized, m)
  else
    match w.mockId with
    | some id =>
      let r := m.resetTimerOp id d
      (.ok r.1, r.2)
    | none => if w.hasStd then (.external, m) else (.nilDeref, m)

/-- The `Timer.Stop`: note that, unlike `Reset`, it performs no `initialised`
check; on the zero value it dereferences the nil embedded stdlib timer. -/
def TimerW.Stop (m : MockClock) (w : TimerW) : WrapOutcome Bool × MockClock :=
  match w.mockId with
  | some id =>
    let r := m.stopTimerOp id
    (.ok r.1, r.2)
  | none => if w.hasStd then (.external, m) else (.nilDeref, m)

/-- The `Ticker.Reset`: panics on an uninitialized wrapper; on a mock it panics
for a non-positive interval, else re-arms the ticker. -/
def TickerW.Reset (m : MockClock) (w : TickerW) (d : Int) :
    WrapOutcome Unit × MockClock :=
  if !w.initialised then (.panicked .resetCalledOnUninitialized, m)
  else
    match w.mockId with
    | some id =>
      match m.resetTickerOp id d with
      | (some e, m2) => (.panicked e, m2)
      | (none, m2) => (.ok (), m2)
    | none => if w.hasStd then (.external, m) else (.nilDeref, m)

/-- The `Ticker.Stop`: no `initialised` check, like `Timer.Stop`. -/
def TickerW.Stop (m : MockClock) (w : TickerW) : WrapOutcome Unit × MockClock :=
  match w.mockId with
  | some id => (.ok (), m.stopTickerOp id)
  | none => if w.hasStd then (.external, m) else (.nilDeref, m)

/-- The zero value `Timer{}`: never obtained from a clock. -/
def uninitTimer : TimerW := { initialised := false, mockId := none, hasStd := false }

/-- The zero value `Ticker{}`: never obtained from a clock. -/
def uninitTicker : TickerW := { initialised := false, mockId := none, hasStd := false }

/-- Resolution errors of a mock deadline context: deadline exceeded,
explicit cancellation, or an arbitrary error propagated from the parent
context (indexed to keep the type concrete). -/
inductive CtxErr
  | deadlineExceeded
  | canceled
  | cause (n : Nat)
deriving DecidableEq, Repr

/-- The `mockContext` struct: its deadline, its resolution error (nil until
resolved), how many times the done channel has been closed, and the bound
timer (owned `*Timer`, nil after release). -/
structure MockContext where
  deadline : Int
  err : Option CtxErr
  doneCloses : Nat
  timer : Option Nat
deriving DecidableEq, Repr

/-- A mock deadline context together with the clock that drives it. -/
structure CtxWorld where
  clock : MockClock
  ctx : MockContext
deriving DecidableEq, Repr

/-- The `mockContext.cancel`: a no-op once an error is set; otherwise records
the error, closes the done channel, and stops and releases the bound
timer.  Deadline firing, explicit cancellation and parent cancellation all
funnel through this function. -/
def cancelCtx (w : CtxWorld) (e : CtxErr) : CtxWorld :=
  if w.ctx.err.isSome then w
  else
    let clock2 :=
      match w.ctx.timer with
      | some id => (w.clock.stopTimerOp id).2
      | none => w.clock
    let n := w.ctx.doneCloses + 1
    { clock := clock2,
      ctx := { w.ctx with err := some e, doneCloses := n, timer := none } }

/-- The `newMockContext`: if the deadline has already passed (per
`clock.Until`) the context is cancelled immediately with deadline-exceeded;
otherwise an `AfterFunc` timer for the remaining duration is bound to it. -/
def newMockContext (m : MockClock) (deadline : Int) : CtxWorld :=
  let ctx0 : MockContext :=
    { deadline := deadline, err := none, doneCloses := 0, timer := none }
  let dur := deadline - m.now
  if dur ≤ 0 then cancelCtx ⟨m, ctx0⟩ .deadlineExceeded
  else
    let r := m.newTimer dur true
    ⟨r.2, { ctx0 with timer := some r.1 }⟩

/-- Number of registry entries carrying the given id in a list. -/
def idCount (id : Nat) (l : List Tickable) : Nat :=
  (l.filter (tickMatch id)).length

/-- Number of registry entries carrying the given id in the whole clock;
ids handed out by `nextTickerId` occur at most once. -/
def MockClock.idCountAll (m : MockClock) (id : Nat) : Nat :=
  idCount id m.active + idCount id m.inactive

/-- Two clock states that agree on everything except the two registry
lists: the frame preserved by pure registry moves. -/
def sameShell (m m2 : MockClock) : Prop :=
  m2.createdAt = m.createdAt ∧ m2.dropsTicks = m.dropsTicks ∧
  m2.now = m.now ∧ m2.nStopped = m.nStopped ∧
  m2.nextTickerId = m.nextTickerId ∧ m2.events = m.events

/-- A sequence of `AdvanceBy` calls, each required to complete normally. -/
def MockClock.advanceSeq (fuel : Nat) : List Int → MockClock → Option MockClock
  | [], m => some m
  | d :: ds, m =>
    match m.advanceBy fuel d with
    | .advanced m2 => MockClock.advanceSeq fuel ds m2
    | _ => none

/-! Advancing a clock with an empty registry -/

theorem advanceBy_empty (m : MockClock) (h : m.active = []) (d : Int)
    (hd : 0 ≤ d) (fuel : Nat) :
    m.advanceBy (fuel + 1) d = .advanced { m with now := m.now + d } := by
  have hlt : ¬ m.now + d < m.now := by omega
  simp [MockClock.advanceBy, MockClock.advanceTo, MockClock.runTicks,
        MockClock.tickStep, h, hlt]

theorem advanceSeq_empty (fuel : Nat) (ds : List Int) (h : ∀ d ∈ ds, 0 ≤ d) :
    ∀ m : MockClock, m.active = [] →
      m.advanceSeq (fuel + 1) ds = some { m with now := m.now + ds.sum } := by
  induction ds with
  | nil =>
    intro m _
    simp [MockClock.advanceSeq]
  | cons d ds ih =>
    intro m hm
    have hd : 0 ≤ d := h d (by simp)
    have hrest : ∀ x ∈ ds, 0 ≤ x := fun x hx => h x (by simp [hx])
    have hstep := advanceBy_empty m hm d hd fuel
    have htail := ih hrest { m with now := m.now + d } (by simpa using hm)
    simp only [MockClock.advanceSeq, hstep, htail, List.sum_cons]
    congr 1
    simp [add_assoc]

/-- Claim C1: starting from a mock clock created in the stopped state (at
any initial time), a sequence of nonnegative durations applied through
`AdvanceBy` completes normally, the current time after any prefix equals
the initial time plus the prefix sum, and the time is non-decreasing
across the calls. -/
theorem claim_C1 (fuel : Nat) (t0 : Int) (ds1 ds2 : List Int)
    (h : ∀ d ∈ ds1 ++ ds2, 0 ≤ d) :
    (atTime t0 newMockClock).advanceSeq (fuel + 1) ds1 =
      some (atTime (t0 + ds1.sum) newMockClock) ∧
    (atTime t0 newMockClock).advanceSeq (fuel + 1) (ds1 ++ ds2) =
      some (atTime (t0 + (ds1 ++ ds2).sum) newMockClock) ∧
    t0 + ds1.sum ≤ t0 + (ds1 ++ ds2).sum := by
  have h1 : ∀ d ∈ ds1, 0 ≤ d := fun d hd => h d (by simp [hd])
  have h2 : ∀ d ∈ ds2, 0 ≤ d := fun d hd => h d (by simp [hd])
  have e1 := advanceSeq_empty fuel ds1 h1 (atTime t0 newMockClock) rfl
  have e2 := advanceSeq_empty fuel (ds1 ++ ds2) h (atTime t0 newMockClock) rfl
  refine ⟨e1, e2, ?_⟩
  have : 0 ≤ ds2.sum := List.sum_nonneg h2
  simp only [List.sum_append]
  omega

/-- Witness for C1 at a concrete sequence. -/
theorem claim_C1_witness :
    (atTime 3 newMockClock).advanceSeq 1 [1, 2] =
      some (atTime 6 newMockClock) ∧
    (atTime 3 newMockClock).advanceSeq 1 ([1, 2] ++ [0, 4]) =
      some (atTime 10 newMockClock) ∧
    (6 : Int) ≤ 10 := by
  have h := claim_C1 0 3 [1, 2] [0, 4] (by decide)
  exact h

/-- Claim C2: advancing to a target strictly before the current time —
directly via `AdvanceTo`, or via `AdvanceBy` whose computed target
`now + d` lies before the current time — panics with the not-a-time-machine
error, and the clock state (current time and both registry lists included)
is exactly the pre-call state. -/
theorem claim_C2 (m : MockClock) (fuel : Nat) :
    (∀ t : Int, t < m.now → m.advanceTo fuel t = .panicked .notADelorean m) ∧
    (∀ d : Int, m.now + d < m.now →
      m.advanceBy fuel d = .panicked .notADelorean m) := by
  constructor
  · intro t ht
    simp [MockClock.advanceTo, ht]
  · intro d hd
    simp [MockClock.advanceBy, MockClock.advanceTo, hd]

/-- Witness for C2 at concrete inputs. -/
theorem claim_C2_witness :
    newMockClock.advanceTo 3 (-5) = .panicked .notADelorean newMockClock ∧
    newMockClock.advanceBy 3 (-7) = .panicked .notADelorean newMockClock := by
  refine ⟨(claim_C2 newMockClock 3).1 (-5) ?_, (claim_C2 newMockClock 3).2 (-7) ?_⟩
  · decide
  · decide

/-- Claim C6 concerns a clock in the running state: the code performs no
running-state check in `AdvanceTo`/`AdvanceBy`, so the call advances the
clock and returns normally instead of panicking — contradicting the
`MockClock` interface documentation, which promises a panic.  This theorem
evaluates the code at the failing input `NewMockClock(StartRunning())`
advanced by 1000. -/
theorem claim_C6 :
    (startRunning newMockClock).nStopped = 0 ∧
    (startRunning newMockClock).advanceBy 1 1000 =
      .advanced (atTime 1000 (startRunning newMockClock)) ∧
    (startRunning newMockClock).advanceTo 1 500 =
      .advanced (atTime 500 (startRunning newMockClock)) := by
  decide

/-! A single ticker driven by one advance -/

theorem runTicks_single (p : Int) (hp : 0 < p) (r : Nat) :
    ∀ (ca w ns : Int) (id k : Nat) (ev : List Event) (x : Int),
      MockClock.runTicks (x + r * p) (r + 1 + 1)
        { createdAt := ca, dropsTicks := false, now := w, nStopped := ns,
          active := [⟨id, .tickerK, p, x, .tsActive⟩], inactive := [],
          nextTickerId := k, events := ev } =
      some
        { createdAt := ca, dropsTicks := false, now := x + r * p, nStopped := ns,
          active := [⟨id, .tickerK, p, x + (r + 1) * p, .tsActive⟩], inactive := [],
          nextTickerId := k,
          events := ev ++ (List.range (r + 1)).map (fun i => ⟨id, x + i * p⟩) } := by
  induction r with
  | zero =>
    intro ca w ns id k ev x
    have hz : ((0 : Nat) : Int) * p = 0 := by norm_num
    have hc2 : x < x + p := by omega
    simp [MockClock.runTicks, MockClock.tickStep, MockClock.tickDispatch,
      MockClock.findTick, getTick, tickMatch, MockClock.tickerTick,
      MockClock.modifyTick, sortTicks, insertTick, hz, hc2]
    simp [List.range_succ, hz]
  | succ r ih =>
    intro ca w ns id k ev x
    have hc : ¬ ((x : Int) + ((r : Nat) + 1 : Nat) * p < x) := by push_cast; nlinarith
    have hcz : ¬ ((((r : Nat) : Int) + 1) * p < 0) := by nlinarith
    have hT : (x : Int) + ((r : Nat) + 1 : Nat) * p = (x + p) + (r : Nat) * p := by
      push_cast; ring
    have step :
        MockClock.runTicks (x + ((r : Nat) + 1 : Nat) * p) (r + 1 + 1 + 1)
          { createdAt := ca, dropsTicks := false, now := w, nStopped := ns,
            active := [⟨id, .tickerK, p, x, .tsActive⟩], inactive := [],
            nextTickerId := k, events := ev } =
        MockClock.runTicks (x + ((r : Nat) + 1 : Nat) * p) (r + 1 + 1)
          { createdAt := ca, dropsTicks := false, now := x, nStopped := ns,
            active := [⟨id, .tickerK, p, x + p, .tsActive⟩], inactive := [],
            nextTickerId := k, events := ev ++ [⟨id, x⟩] } := by
      simp [MockClock.runTicks, MockClock.tickStep, MockClock.tickDispatch,
        MockClock.findTick, getTick, tickMatch, MockClock.tickerTick,
        MockClock.modifyTick, sortTicks, insertTick, hc, hcz]
    rw [step, hT,
      ih ca x ns id k (ev ++ [({ tickerId := id, fireAt := x } : Event)]) (x + p)]
    simp only [Option.some.injEq, MockClock.mk.injEq, List.cons.injEq,
      Tickable.mk.injEq, List.append_assoc, and_true, true_and]
    constructor
    · push_cast
      ring
    · congr 1
      rw [List.singleton_append]
      conv_rhs => rw [List.range_succ_eq_map, List.map_cons, List.map_map]
      simp only [List.cons.injEq]
      refine ⟨by simp, ?_⟩
      apply List.map_congr_left
      intro i _
      simp only [Function.comp_apply, Event.mk.injEq, true_and]
      push_cast
      ring

theorem dropLoop_done (p now a y : Int) (h : now < y) (fuel : Nat) :
    dropLoop p now fuel a y = some (a, y) := by
  cases fuel with
  | zero => simp [dropLoop, not_le.2 h]
  | succ f => simp [dropLoop, not_le.2 h]

theorem dropLoop_run (p : Int) (hp : 0 < p) (k : Nat) :
    ∀ (fuel : Nat), k + 1 ≤ fuel → ∀ (a y : Int),
      dropLoop p (y + k * p) fuel a y = some (y + k * p, y + (k + 1) * p) := by
  induction k with
  | zero =>
    intro fuel hf a y
    match fuel, hf with
    | f + 1, _ =>
      have h1 : (y : Int) + (0 : Nat) * p = y := by push_cast; ring
      have h2 : y < y + p := by omega
      rw [h1]
      simp only [dropLoop, le_refl, if_true]
      rw [dropLoop_done p y y (y + p) h2 f]
      simp
  | succ k ih =>
    intro fuel hf a y
    match fuel, hf with
    | f + 1, hf =>
      have hle : y ≤ y + ((k : Nat) + 1 : Nat) * p := by push_cast; nlinarith
      have harg : (y : Int) + ((k : Nat) + 1 : Nat) * p = (y + p) + (k : Nat) * p := by
        push_cast; ring
      simp only [dropLoop, hle, if_true]
      rw [harg, ih f (by omega) y (y + p)]
      simp only [Option.some.injEq, Prod.mk.injEq, true_and]
      push_cast
      ring

theorem dropLoop_from (p : Int) (hp : 0 < p) (mm : Nat) (fuel : Nat)
    (hf : mm ≤ fuel) (x : Int) :
    dropLoop p (x + mm * p) fuel x (x + p) =
      some (x + mm * p, x + (mm + 1) * p) := by
  cases mm with
  | zero =>
    have h1 : (x : Int) + (0 : Nat) * p = x := by push_cast; ring
    have h2 : x < x + p := by omega
    rw [h1, dropLoop_done p x x (x + p) h2 fuel]
    simp
  | succ k =>
    have harg : (x : Int) + ((k : Nat) + 1 : Nat) * p = (x + p) + (k : Nat) * p := by
      push_cast; ring
    rw [harg, dropLoop_run p hp k fuel (by omega) x (x + p)]
    simp only [Option.some.injEq, Prod.mk.injEq, true_and]
    push_cast
    ring

theorem runTicks_single_drop (p : Int) (hp : 0 < p) (mm : Nat)
    (ca w ns : Int) (id k : Nat) (ev : List Event) (x : Int) :
    MockClock.runTicks (x + mm * p) (mm + 1 + 1)
      { createdAt := ca, dropsTicks := true, now := w, nStopped := ns,
        active := [⟨id, .tickerK, p, x, .tsActive⟩], inactive := [],
        nextTickerId := k, events := ev } =
    some
      { createdAt := ca, dropsTicks := true, now := x + mm * p, nStopped := ns,
        active := [⟨id, .tickerK, p, x + (mm + 1) * p, .tsActive⟩], inactive := [],
        nextTickerId := k, events := ev ++ [⟨id, x + mm * p⟩] } := by
  have hc : ¬ ((x : Int) + (mm : Nat) * p < x) := by
    have : (0 : Int) ≤ (mm : Nat) * p := by positivity
    omega
  have hdrop := dropLoop_from p hp mm (mm + 1) (by omega) x
  have hc2 : (x : Int) + (mm : Nat) * p < x + ((mm : Nat) + 1) * p := by
    push_cast; nlinarith
  simp [MockClock.runTicks, MockClock.tickStep, MockClock.tickDispatch,
    MockClock.findTick, getTick, tickMatch, MockClock.tickerTick,
    MockClock.modifyTick, sortTicks, insertTick, hc, hdrop, hc2]

/-- Claim C3: a ticker with period `p > 0` registered at current time `T`,
driven by a single `AdvanceBy(n*p)` with `n ≥ 1`: with drop-ticks disabled
it delivers exactly `n` ticks, one at each elapsed boundary
`T + p, ..., T + n*p`; with drop-ticks enabled the same advance delivers
exactly one tick carrying `T + n*p`, the last elapsed boundary. -/
theorem claim_C3 (T p : Int) (n : Nat) (hp : 0 < p) (hn : 1 ≤ n) :
    (∃ id m1 m2,
      (atTime T newMockClock).newTicker 0 p = some (id, m1) ∧
      m1.advanceBy (n + 1) (n * p) = .advanced m2 ∧
      m2.events = (List.range n).map (fun i => ⟨id, T + (i + 1) * p⟩) ∧
      m2.now = T + n * p) ∧
    (∃ id m1 m2,
      (dropsTicksOpt (atTime T newMockClock)).newTicker 0 p = some (id, m1) ∧
      m1.advanceBy (n + 1) (n * p) = .advanced m2 ∧
      m2.events = [⟨id, T + n * p⟩] ∧
      m2.now = T + n * p) := by
  obtain ⟨r, rfl⟩ : ∃ r, n = r + 1 := ⟨n - 1, by omega⟩
  have hmax : max p 0 = p := max_eq_left hp.le
  have hnot : ¬ (p ≤ 0) := by omega
  have htgt : (T : Int) + ((r : Nat) + 1 : Nat) * p = (T + p) + (r : Nat) * p := by
    push_cast; ring
  have hnn : ¬ ((T : Int) + ((r : Nat) + 1 : Nat) * p < T) := by
    push_cast; nlinarith
  constructor
  · refine ⟨0,
      { createdAt := 0, dropsTicks := false, now := T, nStopped := 1,
        active := [⟨0, .tickerK, p, T + p, .tsActive⟩], inactive := [],
        nextTickerId := 1, events := [] },
      { createdAt := 0, dropsTicks := false,
        now := T + ((r : Nat) + 1 : Nat) * p, nStopped := 1,
        active := [⟨0, .tickerK, p, (T + p) + ((r : Nat) + 1) * p, .tsActive⟩],
        inactive := [], nextTickerId := 1,
        events := (List.range (r + 1)).map (fun i => ⟨0, (T + p) + (i : Nat) * p⟩) },
      ?_, ?_, ?_, ?_⟩
    · simp [MockClock.newTicker, MockClock.activateTicker, sortTicks, insertTick,
        atTime, newMockClock, hnot, hmax]
    · simp only [MockClock.advanceBy, MockClock.advanceTo, hnn, if_false]
      rw [htgt, runTicks_single p hp r 0 T 1 0 1 [] (T + p)]
      simp only [List.nil_append, AdvanceResult.advanced.injEq, MockClock.mk.injEq,
        and_true, true_and]
    · apply List.map_congr_left
      intro i _
      simp only [Event.mk.injEq, true_and]
      push_cast; ring
    · rfl
  · refine ⟨0,
      { createdAt := 0, dropsTicks := true, now := T, nStopped := 1,
        active := [⟨0, .tickerK, p, T + p, .tsActive⟩], inactive := [],
        nextTickerId := 1, events := [] },
      { createdAt := 0, dropsTicks := true,
        now := T + ((r : Nat) + 1 : Nat) * p, nStopped := 1,
        active := [⟨0, .tickerK, p, (T + p) + ((r : Nat) + 1) * p, .tsActive⟩],
        inactive := [], nextTickerId := 1,
        events := [⟨0, (T + p) + (r : Nat) * p⟩] },
      ?_, ?_, ?_, ?_⟩
    · simp [MockClock.newTicker, MockClock.activateTicker, sortTicks, insertTick,
        atTime, dropsTicksOpt, newMockClock, hnot, hmax]
    · simp only [MockClock.advanceBy, MockClock.advanceTo, hnn, if_false]
      rw [htgt, runTicks_single_drop p hp r 0 T 1 0 1 [] (T + p)]
      simp only [List.nil_append, AdvanceResult.advanced.injEq, MockClock.mk.injEq,
        and_true, true_and]
    · simp only [List.cons.injEq, Event.mk.injEq, true_and, and_true]
      push_cast; ring
    · rfl

/-- Witness for C3 at `T = 0`, `p = 2`, `n = 3`. -/
theorem claim_C3_witness :
    (∃ id m1 m2,
      (atTime 0 newMockClock).newTicker 0 2 = some (id, m1) ∧
      m1.advanceBy (3 + 1) (((3 : Nat) : Int) * 2) = .advanced m2 ∧
      m2.events = (List.range 3).map (fun i => ⟨id, (0 : Int) + ((i : Int) + 1) * 2⟩) ∧
      m2.now = (0 : Int) + ((3 : Nat) : Int) * 2) ∧
    (∃ id m1 m2,
      (dropsTicksOpt (atTime 0 newMockClock)).newTicker 0 2 = some (id, m1) ∧
      m1.advanceBy (3 + 1) (((3 : Nat) : Int) * 2) = .advanced m2 ∧
      m2.events = [⟨id, (0 : Int) + ((3 : Nat) : Int) * 2⟩] ∧
      m2.now = (0 : Int) + ((3 : Nat) : Int) * 2) :=
  claim_C3 0 2 3 (by norm_num) (by norm_num)

/-! Registry bookkeeping under unique ids -/

theorem idCount_cons (id : Nat) (t : Tickable) (l : List Tickable) :
    idCount id (t :: l) = (if tickMatch id t then 1 else 0) + idCount id l := by
  by_cases h : tickMatch id t <;> simp [idCount, List.filter_cons, h] <;> omega

theorem idCount_append (id : Nat) (l1 l2 : List Tickable) :
    idCount id (l1 ++ l2) = idCount id l1 + idCount id l2 := by
  simp [idCount, List.filter_append]

theorem idCount_perm (id : Nat) {l l2 : List Tickable} (h : l.Perm l2) :
    idCount id l = idCount id l2 :=
  (h.filter (tickMatch id)).length_eq

theorem idCount_pos_of_mem {id : Nat} {t : Tickable} {l : List Tickable}
    (hm : t ∈ l) (ht : tickMatch id t) : 1 ≤ idCount id l := by
  have h1 : t ∈ l.filter (tickMatch id) := List.mem_filter.2 ⟨hm, ht⟩
  have h2 : l.filter (tickMatch id) ≠ [] := List.ne_nil_of_mem h1
  have := List.length_pos.2 h2
  simpa [idCount] using this

theorem getTick_mem {id : Nat} {l : List Tickable} {t : Tickable}
    (h : getTick id l = some t) : t ∈ l ∧ tickMatch id t :=
  ⟨List.mem_of_find?_eq_some h, List.find?_some h⟩

theorem getTick_eq_none {id : Nat} {l : List Tickable} :
    getTick id l = none ↔ idCount id l = 0 := by
  simp [getTick, idCount, List.find?_eq_none, List.length_eq_zero,
    List.filter_eq_nil]

theorem getTick_of_mem_unique {id : Nat} {l : List Tickable} {t : Tickable}
    (hu : idCount id l ≤ 1) (hm : t ∈ l) (ht : tickMatch id t) :
    getTick id l = some t := by
  induction l with
  | nil => cases hm
  | cons a l ih =>
    rcases List.mem_cons.1 hm with rfl | hm2
    · unfold getTick
      rw [List.find?_cons_of_pos _ ht]
    · by_cases ha : tickMatch id a
      · exfalso
        have h1 : 1 ≤ idCount id l := idCount_pos_of_mem hm2 ht
        rw [idCount_cons, if_pos ha] at hu
        omega
      · have hu2 : idCount id l ≤ 1 := by
          rw [idCount_cons, if_neg ha] at hu
          omega
        unfold getTick
        rw [List.find?_cons_of_neg _ ha]
        exact ih hu2 hm2

theorem getTick_perm_unique {id : Nat} {l l2 : List Tickable} (h : l.Perm l2)
    (hu : idCount id l ≤ 1) : getTick id l = getTick id l2 := by
  cases hg : getTick id l with
  | none =>
    have h0 : idCount id l = 0 := getTick_eq_none.1 hg
    have h2 : idCount id l2 = 0 := by rw [← idCount_perm id h]; exact h0
    exact (getTick_eq_none.2 h2).symm
  | some t =>
    obtain ⟨hm, ht⟩ := getTick_mem hg
    have hm2 : t ∈ l2 := h.mem_iff.1 hm
    have hu2 : idCount id l2 ≤ 1 := by rw [← idCount_perm id h]; exact hu
    exact (getTick_of_mem_unique hu2 hm2 ht).symm

theorem perm_removeTick {id : Nat} {l : List Tickable} {t : Tickable}
    (h : getTick id l = some t) : l.Perm (t :: removeTick id l) := by
  induction l with
  | nil => simp [getTick] at h
  | cons a l ih =>
    by_cases ha : tickMatch id a
    · unfold getTick at h
      rw [List.find?_cons_of_pos _ ha] at h
      cases h
      simp [removeTick, ha]
    · unfold getTick at h
      rw [List.find?_cons_of_neg _ ha] at h
      have hp := ih h
      rw [removeTick, if_neg ha]
      exact (hp.cons a).trans (List.Perm.swap t a (removeTick id l))

theorem getTick_removeTick_none {id : Nat} {l : List Tickable} {t : Tickable}
    (hu : idCount id l ≤ 1) (h : getTick id l = some t) :
    getTick id (removeTick id l) = none := by
  have hp := perm_removeTick h
  have hc := idCount_perm id hp
  obtain ⟨_, ht⟩ := getTick_mem h
  rw [idCount_cons, if_pos ht] at hc
  rw [getTick_eq_none]
  omega

theorem getTick_append (id : Nat) (l1 l2 : List Tickable) :
    getTick id (l1 ++ l2) =
      match getTick id l1 with
      | some t => some t
      | none => getTick id l2 := by
  induction l1 with
  | nil => simp [getTick]
  | cons a l1 ih =>
    by_cases ha : tickMatch id a
    · unfold getTick
      rw [List.cons_append, List.find?_cons_of_pos _ ha,
        List.find?_cons_of_pos _ ha]
    · unfold getTick
      rw [List.cons_append, List.find?_cons_of_neg _ ha,
        List.find?_cons_of_neg _ ha]
      exact ih

theorem getTick_mapIf {id : Nat} (f : Tickable → Tickable)
    (hf : ∀ u, (f u).tickerId = u.tickerId) (l : List Tickable) :
    getTick id (l.map (fun t => if tickMatch id t then f t else t)) =
      (getTick id l).map f := by
  induction l with
  | nil => rfl
  | cons a l ih =>
    by_cases ha : tickMatch id a
    · have ha2 : tickMatch id (f a) := by
        simpa [tickMatch, hf a] using ha
      unfold getTick
      rw [List.map_cons, if_pos ha, List.find?_cons_of_pos _ ha2,
        List.find?_cons_of_pos _ ha]
      rfl
    · unfold getTick
      rw [List.map_cons, if_neg ha, List.find?_cons_of_neg _ ha,
        List.find?_cons_of_neg _ ha]
      exact ih

theorem idCount_mapIf {id : Nat} (f : Tickable → Tickable)
    (hf : ∀ u, (f u).tickerId = u.tickerId) (l : List Tickable) :
    idCount id (l.map (fun t => if tickMatch id t then f t else t)) =
      idCount id l := by
  induction l with
  | nil => rfl
  | cons a l ih =>
    by_cases ha : tickMatch id a
    · have ha2 : tickMatch id (f a) := by
        simpa [tickMatch, hf a] using ha
      rw [List.map_cons, if_pos ha, idCount_cons, idCount_cons, if_pos ha,
        if_pos ha2, ih]
    · rw [List.map_cons, if_neg ha, idCount_cons, idCount_cons, if_neg ha, ih]

theorem insertTick_perm (x : Tickable) (l : List Tickable) :
    (insertTick x l).Perm (x :: l) := by
  induction l with
  | nil => exact List.Perm.refl _
  | cons y ys ih =>
    unfold insertTick
    by_cases hxy : x.next < y.next
    · rw [if_pos hxy]
    · rw [if_neg hxy]
      exact (ih.cons y).trans (List.Perm.swap x y ys)

theorem foldl_insertTick_perm (l : List Tickable) :
    ∀ acc : List Tickable,
      (l.foldl (fun acc x => insertTick x acc) acc).Perm (acc ++ l) := by
  induction l with
  | nil => intro acc; simp
  | cons x l ih =>
    intro acc
    have h1 := ih (insertTick x acc)
    have h2 : (insertTick x acc ++ l).Perm ((x :: acc) ++ l) :=
      (insertTick_perm x acc).append_right l
    have h3 : ((x :: acc) ++ l).Perm (acc ++ x :: l) := by
      simpa using List.perm_middle.symm
    exact (h1.trans h2).trans h3

theorem sortTicks_perm (l : List Tickable) : (sortTicks l).Perm l := by
  simpa [sortTicks] using foldl_insertTick_perm l []

theorem insertTick_sorted {l : List Tickable} (h : sortedByNext l)
    (x : Tickable) : sortedByNext (insertTick x l) := by
  unfold sortedByNext at *
  induction l with
  | nil => simp [insertTick]
  | cons y ys ih =>
    unfold insertTick
    by_cases hxy : x.next < y.next
    · rw [if_pos hxy]
      exact List.chain'_cons.2 ⟨hxy.le, h⟩
    · rw [if_neg hxy]
      cases ys with
      | nil =>
        simp [insertTick, List.chain'_cons, le_of_not_lt hxy]
      | cons z zs =>
        rw [List.chain'_cons] at h
        show List.Chain' _ (y :: insertTick x (z :: zs))
        unfold insertTick
        by_cases hxz : x.next < z.next
        · rw [if_pos hxz]
          exact List.chain'_cons.2 ⟨le_of_not_lt hxy, List.chain'_cons.2 ⟨hxz.le, h.2⟩⟩
        · rw [if_neg hxz]
          have ht := ih h.2
          rw [insertTick, if_neg hxz] at ht
          exact List.chain'_cons.2 ⟨h.1, ht⟩

theorem sortTicks_sorted (l : List Tickable) : sortedByNext (sortTicks l) := by
  suffices h : ∀ acc, sortedByNext acc →
      sortedByNext (l.foldl (fun acc x => insertTick x acc) acc) by
    exact h [] (by simp [sortedByNext])
  induction l with
  | nil => intro acc h; simpa using h
  | cons x l ih => intro acc h; exact ih _ (insertTick_sorted h x)

/-! Frame and lookup lemmas for the registry operations -/

theorem sameShell_rfl (m : MockClock) : sameShell m m :=
  ⟨rfl, rfl, rfl, rfl, rfl, rfl⟩

theorem sameShell_trans {m1 m2 m3 : MockClock} (h1 : sameShell m1 m2)
    (h2 : sameShell m2 m3) : sameShell m1 m3 := by
  obtain ⟨a1, b1, c1, d1, e1, f1⟩ := h1
  obtain ⟨a2, b2, c2, d2, e2, f2⟩ := h2
  exact ⟨a2.trans a1, b2.trans b1, c2.trans c1, d2.trans d1, e2.trans e1,
    f2.trans f1⟩

theorem sameShell_modifyTick (m : MockClock) (id : Nat)
    (f : Tickable → Tickable) : sameShell m (m.modifyTick id f) :=
  ⟨rfl, rfl, rfl, rfl, rfl, rfl⟩

theorem sameShell_disableTicker (m : MockClock) (id : Nat) :
    sameShell m (m.disableTicker id) := by
  rcases h : takeTick id m.active with ⟨rest, u⟩
  cases u <;> simp [MockClock.disableTicker, h, sameShell]

theorem sameShell_enableTicker (m : MockClock) (id : Nat) :
    sameShell m (m.enableTicker id) := by
  rcases h : takeTick id m.inactive with ⟨rest, u⟩
  cases u <;> simp [MockClock.enableTicker, MockClock.activateTicker, h, sameShell]

theorem sameShell_enterState (m : MockClock) (id : Nat) (s : TickerState) :
    sameShell m (m.enterState id s).2 := by
  unfold MockClock.enterState
  cases h : m.findTick id with
  | none => exact sameShell_rfl m
  | some t =>
    dsimp only
    by_cases hts : t.state = s
    · rw [if_pos hts]
      exact sameShell_rfl m
    · rw [if_neg hts]
      have h1 := sameShell_modifyTick m id (fun u => { u with state := s })
      cases s with
      | tsActive => exact sameShell_trans h1 (sameShell_enableTicker _ id)
      | tsStopped => exact sameShell_trans h1 (sameShell_disableTicker _ id)
      | tsExpired =>
        cases hk : t.kind with
        | tickerK => exact h1
        | timerFn => exact sameShell_trans h1 (sameShell_disableTicker _ id)
        | timerChan => exact sameShell_trans h1 (sameShell_disableTicker _ id)

theorem findTick_modifyTick (m : MockClock) (id : Nat) (f : Tickable → Tickable)
    (hf : ∀ u, (f u).tickerId = u.tickerId) :
    (m.modifyTick id f).findTick id = (m.findTick id).map f := by
  unfold MockClock.findTick MockClock.modifyTick
  dsimp only
  rw [getTick_mapIf f hf, getTick_mapIf f hf]
  cases getTick id m.active <;> rfl

theorem idCountAll_modifyTick (m : MockClock) (id : Nat)
    (f : Tickable → Tickable) (hf : ∀ u, (f u).tickerId = u.tickerId) :
    (m.modifyTick id f).idCountAll id = m.idCountAll id := by
  show idCount id (m.active.map _) + idCount id (m.inactive.map _) = _
  rw [idCount_mapIf f hf, idCount_mapIf f hf]
  rfl

theorem findTick_disableTicker (m : MockClock) (id : Nat)
    (hu : m.idCountAll id ≤ 1) :
    (m.disableTicker id).findTick id = m.findTick id := by
  unfold MockClock.disableTicker takeTick
  cases hg : getTick id m.active with
  | none => rfl
  | some t =>
    obtain ⟨hm, ht⟩ := getTick_mem hg
    have h1le : 1 ≤ idCount id m.active := idCount_pos_of_mem hm ht
    have hua : idCount id m.active ≤ 1 := by
      unfold MockClock.idCountAll at hu
      omega
    have hui : idCount id m.inactive = 0 := by
      unfold MockClock.idCountAll at hu
      omega
    have h1 : getTick id (removeTick id m.active) = none :=
      getTick_removeTick_none hua hg
    have h2 : getTick id m.inactive = none := getTick_eq_none.2 hui
    have hfind : m.findTick id = some t := by
      unfold MockClock.findTick
      rw [hg]
    rw [hfind]
    show MockClock.findTick _ id = some t
    unfold MockClock.findTick
    dsimp only
    rw [h1, getTick_append id m.inactive [t], h2]
    show getTick id [t] = some t
    unfold getTick
    rw [List.find?_cons_of_pos _ ht]

theorem findTick_enableTicker (m : MockClock) (id : Nat)
    (hu : m.idCountAll id ≤ 1) :
    (m.enableTicker id).findTick id = m.findTick id := by
  unfold MockClock.enableTicker takeTick
  cases hg : getTick id m.inactive with
  | none => rfl
  | some t =>
    obtain ⟨hm, ht⟩ := getTick_mem hg
    have h1le : 1 ≤ idCount id m.inactive := idCount_pos_of_mem hm ht
    have hua : idCount id m.active = 0 := by
      unfold MockClock.idCountAll at hu
      omega
    have h2 : getTick id m.active = none := getTick_eq_none.2 hua
    have hfind : m.findTick id = some t := by
      unfold MockClock.findTick
      rw [h2]
      exact hg
    rw [hfind]
    have hone : idCount id [t] = 1 := by
      rw [idCount_cons, if_pos ht]
      rfl
    have hcount : idCount id (m.active ++ [t]) ≤ 1 := by
      rw [idCount_append, hua, hone]
    have hperm := sortTicks_perm (m.active ++ [t])
    have hcount2 : idCount id (sortTicks (m.active ++ [t])) ≤ 1 := by
      rw [idCount_perm id hperm]
      exact hcount
    have hsingle : getTick id [t] = some t := by
      unfold getTick
      rw [List.find?_cons_of_pos _ ht]
    have happ : getTick id (m.active ++ [t]) = some t := by
      rw [getTick_append id m.active [t], h2]
      exact hsingle
    have hact : getTick id (sortTicks (m.active ++ [t])) = some t := by
      rw [getTick_perm_unique hperm hcount2]
      exact happ
    show MockClock.findTick _ id = some t
    unfold MockClock.findTick MockClock.activateTicker
    dsimp only
    rw [hact]

theorem idCountAll_disableTicker (m : MockClock) (id : Nat) :
    (m.disableTicker id).idCountAll id = m.idCountAll id := by
  unfold MockClock.disableTicker takeTick
  cases hg : getTick id m.active with
  | none => rfl
  | some t =>
    obtain ⟨_, ht⟩ := getTick_mem hg
    show idCount id (removeTick id m.active) + idCount id (m.inactive ++ [t]) = _
    have hp := perm_removeTick hg
    have hc := idCount_perm id hp
    rw [idCount_cons, if_pos ht] at hc
    have hone : idCount id [t] = 1 := by
      rw [idCount_cons, if_pos ht]
      rfl
    rw [idCount_append, hone]
    unfold MockClock.idCountAll
    omega

theorem idCountAll_enableTicker (m : MockClock) (id : Nat) :
    (m.enableTicker id).idCountAll id = m.idCountAll id := by
  unfold MockClock.enableTicker takeTick
  cases hg : getTick id m.inactive with
  | none => rfl
  | some t =>
    obtain ⟨_, ht⟩ := getTick_mem hg
    show idCount id (sortTicks (m.active ++ [t])) + idCount id (removeTick id m.inactive) = _
    have hp := perm_removeTick hg
    have hc := idCount_perm id hp
    rw [idCount_cons, if_pos ht] at hc
    have hone : idCount id [t] = 1 := by
      rw [idCount_cons, if_pos ht]
      rfl
    rw [idCount_perm id (sortTicks_perm (m.active ++ [t])), idCount_append, hone]
    unfold MockClock.idCountAll
    omega

/-- Full characterisation of a successful `enterState` transition on a
uniquely-registered tickable. -/
theorem enterState_spec (m : MockClock) (id : Nat) (s : TickerState)
    (t : Tickable) (hu : m.idCountAll id ≤ 1) (h : m.findTick id = some t)
    (hne : t.state ≠ s) (hok : ¬ (s = .tsExpired ∧ t.kind = .tickerK)) :
    (m.enterState id s).2.findTick id = some { t with state := s } ∧
    (m.enterState id s).2.idCountAll id = m.idCountAll id ∧
    sameShell m (m.enterState id s).2 := by
  have hf : ∀ u : Tickable,
      ((fun u => { u with state := s }) u : Tickable).tickerId = u.tickerId :=
    fun _ => rfl
  have hfind2 : (m.modifyTick id (fun u => { u with state := s })).findTick id =
      some { t with state := s } := by
    rw [findTick_modifyTick m id _ hf, h]
    rfl
  have hcount2 : (m.modifyTick id (fun u => { u with state := s })).idCountAll id =
      m.idCountAll id := idCountAll_modifyTick m id _ hf
  have hu2 : (m.modifyTick id (fun u => { u with state := s })).idCountAll id ≤ 1 := by
    rw [hcount2]
    exact hu
  have hshell := sameShell_enterState m id s
  unfold MockClock.enterState
  rw [h]
  dsimp only
  rw [if_neg hne]
  unfold MockClock.enterState at hshell
  rw [h] at hshell
  dsimp only at hshell
  rw [if_neg hne] at hshell
  cases s with
  | tsActive =>
    refine ⟨?_, ?_, hshell⟩
    · show ((m.modifyTick id _).enableTicker id).findTick id = _
      rw [findTick_enableTicker _ id hu2, hfind2]
    · show ((m.modifyTick id _).enableTicker id).idCountAll id = _
      rw [idCountAll_enableTicker _ id, hcount2]
  | tsStopped =>
    refine ⟨?_, ?_, hshell⟩
    · show ((m.modifyTick id _).disableTicker id).findTick id = _
      rw [findTick_disableTicker _ id hu2, hfind2]
    · show ((m.modifyTick id _).disableTicker id).idCountAll id = _
      rw [idCountAll_disableTicker _ id, hcount2]
  | tsExpired =>
    cases hk : t.kind with
    | tickerK => exact absurd (And.intro rfl hk) hok
    | timerFn =>
      refine ⟨?_, ?_, ?_⟩
      · show ((m.modifyTick id _).disableTicker id).findTick id = _
        rw [findTick_disableTicker _ id hu2, hfind2, hk]
      · show ((m.modifyTick id _).disableTicker id).idCountAll id = _
        rw [idCountAll_disableTicker _ id, hcount2]
      · rw [hk] at hshell
        exact hshell
    | timerChan =>
      refine ⟨?_, ?_, ?_⟩
      · show ((m.modifyTick id _).disableTicker id).findTick id = _
        rw [findTick_disableTicker _ id hu2, hfind2, hk]
      · show ((m.modifyTick id _).disableTicker id).idCountAll id = _
        rw [idCountAll_disableTicker _ id, hcount2]
      · rw [hk] at hshell
        exact hshell

/-- The `timer.tick` on a due, active, uniquely-registered timer. -/
theorem timerTick_fires (m : MockClock) (id : Nat) (t : Tickable) (now : Int)
    (hu : m.idCountAll id ≤ 1) (h : m.findTick id = some t)
    (ha : t.state = .tsActive) (hk : t.kind ≠ .tickerK)
    (hdue : ¬ now < t.next) :
    (m.timerTick id now).1 = true ∧
    (m.timerTick id now).2.findTick id = some { t with state := .tsExpired } ∧
    (m.timerTick id now).2.idCountAll id = m.idCountAll id ∧
    (m.timerTick id now).2.events = m.events ++ [⟨id, t.next⟩] ∧
    (m.timerTick id now).2.now = t.next := by
  have hcond : ¬ (t.state ≠ TickerState.tsActive ∨ now < t.next) := by
    push_neg
    exact ⟨ha, le_of_not_lt hdue⟩
  have hne : t.state ≠ .tsExpired := by
    rw [ha]
    intro hcon
    cases hcon
  have hok : ¬ (TickerState.tsExpired = TickerState.tsExpired ∧
      t.kind = TickKind.tickerK) := fun hcon => hk hcon.2
  obtain ⟨hes1, hes2, hes3⟩ := enterState_spec m id .tsExpired t hu h hne hok
  obtain ⟨hc1, hc2, hc3, hc4, hc5, hc6⟩ := hes3
  simp only [MockClock.timerTick, h]
  rw [if_neg hcond]
  refine ⟨rfl, hes1, hes2, ?_, rfl⟩
  show (m.enterState id .tsExpired).2.events ++ [⟨id, t.next⟩] = _
  rw [hc6]

/-- The `timer.tick` declines when the timer is not active or not yet due. -/
theorem timerTick_no (m : MockClock) (id : Nat) (t : Tickable) (now : Int)
    (h : m.findTick id = some t)
    (hno : t.state ≠ TickerState.tsActive ∨ now < t.next) :
    m.timerTick id now = (false, m) := by
  simp only [MockClock.timerTick, h]
  rw [if_pos hno]

/-- The `timer.stop` on an active, uniquely-registered tickable. -/
theorem stopTimerOp_active (m : MockClock) (id : Nat) (t : Tickable)
    (hu : m.idCountAll id ≤ 1) (h : m.findTick id = some t)
    (ha : t.state = .tsActive) :
    (m.stopTimerOp id).1 = true ∧
    (m.stopTimerOp id).2.findTick id = some { t with state := .tsStopped } ∧
    (m.stopTimerOp id).2.idCountAll id = m.idCountAll id ∧
    sameShell m (m.stopTimerOp id).2 := by
  have hne : t.state ≠ .tsStopped := by
    rw [ha]
    intro hcon
    cases hcon
  have hok : ¬ (TickerState.tsStopped = TickerState.tsExpired ∧
      t.kind = TickKind.tickerK) := fun hcon => by cases hcon.1
  obtain ⟨hes1, hes2, hes3⟩ := enterState_spec m id .tsStopped t hu h hne hok
  simp only [MockClock.stopTimerOp, h]
  rw [if_pos ha]
  exact ⟨rfl, hes1, hes2, hes3⟩

/-- The `timer.stop` is a no-op on a tickable that is not active. -/
theorem stopTimerOp_inactive (m : MockClock) (id : Nat) (t : Tickable)
    (h : m.findTick id = some t) (ha : t.state ≠ .tsActive) :
    m.stopTimerOp id = (false, m) := by
  simp only [MockClock.stopTimerOp, h]
  rw [if_neg ha]

/-- The `ticker.stop` performs exactly the state change of `timer.stop`, minus
the report. -/
theorem stopTickerOp_eq (m : MockClock) (id : Nat) :
    m.stopTickerOp id = (m.stopTimerOp id).2 := by
  unfold MockClock.stopTickerOp MockClock.stopTimerOp
  cases h : m.findTick id with
  | none => rfl
  | some t =>
    dsimp only
    by_cases ha : t.state = .tsActive
    · rw [if_pos ha, if_pos ha]
    · rw [if_neg ha, if_neg ha]

/-- Claim C9: `stop()` on a mock Timer or Ticker is idempotent: the first
call on an Active tickable transitions it to Stopped and (for a timer,
whose stop reports) returns true; a second call is a no-op returning false
that leaves the whole clock state — the tickable state and its
nextFireTime included — unchanged.  The mock ticker stop performs the same
transition without a report. -/
theorem claim_C9 (m : MockClock) (id : Nat) (t : Tickable)
    (hu : m.idCountAll id ≤ 1) (h : m.findTick id = some t)
    (ha : t.state = .tsActive) :
    (m.stopTimerOp id).1 = true ∧
    (m.stopTimerOp id).2.findTick id = some { t with state := .tsStopped } ∧
    (m.stopTimerOp id).2.stopTimerOp id = (false, (m.stopTimerOp id).2) ∧
    m.stopTickerOp id = (m.stopTimerOp id).2 ∧
    (m.stopTickerOp id).stopTickerOp id = m.stopTickerOp id := by
  obtain ⟨h1, h2, h3, h4⟩ := stopTimerOp_active m id t hu h ha
  have hstop2 : (m.stopTimerOp id).2.stopTimerOp id = (false, (m.stopTimerOp id).2) :=
    stopTimerOp_inactive _ id _ h2 (by intro hcon; cases hcon)
  refine ⟨h1, h2, hstop2, stopTickerOp_eq m id, ?_⟩
  rw [stopTickerOp_eq m id, stopTickerOp_eq _ id, hstop2]

/-- Witness for C9 on a concrete timer. -/
theorem claim_C9_witness :
    (((newMockClock.newTimer 5 false).2.stopTimerOp 0).1 = true ∧
     ((newMockClock.newTimer 5 false).2.stopTimerOp 0).2.findTick 0 =
       some ⟨0, .timerChan, 0, 5, .tsStopped⟩ ∧
     ((newMockClock.newTimer 5 false).2.stopTimerOp 0).2.stopTimerOp 0 =
       (false, ((newMockClock.newTimer 5 false).2.stopTimerOp 0).2) ∧
     (newMockClock.newTimer 5 false).2.stopTickerOp 0 =
       ((newMockClock.newTimer 5 false).2.stopTimerOp 0).2 ∧
     ((newMockClock.newTimer 5 false).2.stopTickerOp 0).stopTickerOp 0 =
       (newMockClock.newTimer 5 false).2.stopTickerOp 0) :=
  claim_C9 (newMockClock.newTimer 5 false).2 0 ⟨0, .timerChan, 0, 5, .tsActive⟩
    (by decide) (by decide) (by decide)

/-- Claim C4 (amended): `Reset(d)` on an initialized mock timer re-arms it
at `currentTime + d` leaving it Active, returns true iff the timer was
Active immediately before the call, and delivers an immediate fire
(without any advance call) exactly when `d = 0` and the timer was Active;
in every other case — in particular for every `d < 0` — no immediate
delivery happens. -/
theorem claim_C4 (m : MockClock) (id : Nat) (t : Tickable) (d : Int)
    (hu : m.idCountAll id ≤ 1) (h : m.findTick id = some t)
    (hk : t.kind ≠ .tickerK) :
    ((m.resetTimerOp id d).1 = true ↔ t.state = .tsActive) ∧
    (m.resetTimerOp id d).2.findTick id =
      some { t with next := m.now + d, state := .tsActive } ∧
    (m.resetTimerOp id d).2.events =
      m.events ++ (if d = 0 ∧ t.state = .tsActive then [⟨id, m.now⟩] else []) ∧
    (m.resetTimerOp id d).2.now = m.now := by
  have hf : ∀ u : Tickable,
      ((fun u => { u with next := m.now + d }) u : Tickable).tickerId = u.tickerId :=
    fun _ => rfl
  have hfind2 :
      (m.modifyTick id (fun u => { u with next := m.now + d })).findTick id =
        some { t with next := m.now + d } := by
    rw [findTick_modifyTick m id _ hf, h]
    rfl
  have hcount2 := idCountAll_modifyTick m id (fun u => { u with next := m.now + d }) hf
  have hu2 :
      (m.modifyTick id (fun u => { u with next := m.now + d })).idCountAll id ≤ 1 := by
    rw [hcount2]
    exact hu
  simp only [MockClock.resetTimerOp, h]
  by_cases hd0 : d = 0
  · subst hd0
    rw [if_pos rfl]
    by_cases hact : t.state = .tsActive
    · have hdue : ¬ m.now < ({ t with next := m.now + 0 } : Tickable).next := by
        show ¬ m.now < m.now + 0
        omega
      obtain ⟨hf1, hf2, hf3, hf4, hf5⟩ :=
        timerTick_fires _ id { t with next := m.now + 0 } m.now hu2 hfind2 hact hk hdue
      have hcond :
          (((m.modifyTick id (fun u => { u with next := m.now + 0 })).timerTick
              id m.now).2.findTick id).map Tickable.state ≠ some .tsActive := by
        rw [hf2]
        simp
      rw [if_pos hcond]
      have hu3 :
          ((m.modifyTick id (fun u => { u with next := m.now + 0 })).timerTick
            id m.now).2.idCountAll id ≤ 1 := by
        rw [hf3, hcount2]
        exact hu
      have hne3 :
          ({ { t with next := m.now + 0 } with state := TickerState.tsExpired } :
            Tickable).state ≠ .tsActive := by
        intro hcon
        cases hcon
      obtain ⟨he1, he2, he3⟩ :=
        enterState_spec _ id .tsActive _ hu3 hf2 hne3 (by intro hcon; cases hcon.1)
      obtain ⟨hs1, hs2, hs3, hs4, hs5, hs6⟩ := he3
      refine ⟨by simp [hact], he1, ?_, ?_⟩
      · rw [hs6, hf4]
        simp [MockClock.modifyTick, hact]
      · rw [hs3, hf5]
        simp
    · simp only [timerTick_no _ id _ m.now hfind2 (Or.inl hact)]
      have hcond :
          ((m.modifyTick id (fun u => { u with next := m.now + 0 })).findTick id).map
            Tickable.state ≠ some .tsActive := by
        rw [hfind2]
        simpa using hact
      rw [if_pos hcond]
      obtain ⟨he1, he2, he3⟩ :=
        enterState_spec _ id .tsActive _ hu2 hfind2
          (show ({ t with next := m.now + 0 } : Tickable).state ≠ .tsActive from hact)
          (by intro hcon; cases hcon.1)
      obtain ⟨hs1, hs2, hs3, hs4, hs5, hs6⟩ := he3
      refine ⟨by simp [hact], he1, ?_, ?_⟩
      · rw [hs6]
        simp [MockClock.modifyTick, hact]
      · rw [hs3]
        rfl
  · rw [if_neg hd0]
    by_cases hact : t.state = .tsActive
    · have hcond :
          ¬ (((m.modifyTick id (fun u => { u with next := m.now + d })).findTick id).map
              Tickable.state ≠ some .tsActive) := by
        rw [hfind2]
        simp [hact]
      rw [if_neg hcond]
      refine ⟨by simp [hact], ?_, ?_, ?_⟩
      · rw [hfind2, ← hact]
      · simp [MockClock.modifyTick, hd0]
      · rfl
    · have hcond :
          ((m.modifyTick id (fun u => { u with next := m.now + d })).findTick id).map
            Tickable.state ≠ some .tsActive := by
        rw [hfind2]
        simpa using hact
      rw [if_pos hcond]
      obtain ⟨he1, he2, he3⟩ :=
        enterState_spec _ id .tsActive _ hu2 hfind2
          (show ({ t with next := m.now + d } : Tickable).state ≠ .tsActive from hact)
          (by intro hcon; cases hcon.1)
      obtain ⟨hs1, hs2, hs3, hs4, hs5, hs6⟩ := he3
      refine ⟨by simp [hact], he1, ?_, ?_⟩
      · rw [hs6]
        simp [MockClock.modifyTick, hd0]
      · rw [hs3]
        rfl

/-- C4 counterexample: `Reset(-1)` on an active mock timer delivers nothing
(no event is dispatched, refuting the claim that every `d ≤ 0` fires the
timer immediately); the timer is merely re-armed at the past instant `-1`
and stays Active, and the call reports true. -/
theorem claim_C4_cex :
    ((newMockClock.newTimer 5 false).2.resetTimerOp 0 (-1)).2.events = [] ∧
    ((newMockClock.newTimer 5 false).2.resetTimerOp 0 (-1)).2.findTick 0 =
      some ⟨0, .timerChan, 0, -1, .tsActive⟩ ∧
    ((newMockClock.newTimer 5 false).2.resetTimerOp 0 (-1)).1 = true := by
  decide

/-- Witness for C4 on a concrete active timer with `d = 0`. -/
theorem claim_C4_witness :
    (((newMockClock.newTimer 5 false).2.resetTimerOp 0 0).1 = true ↔
      (⟨0, .timerChan, 0, 5, .tsActive⟩ : Tickable).state = .tsActive) ∧
    ((newMockClock.newTimer 5 false).2.resetTimerOp 0 0).2.findTick 0 =
      some ⟨0, .timerChan, 0, (newMockClock.newTimer 5 false).2.now + 0, .tsActive⟩ ∧
    ((newMockClock.newTimer 5 false).2.resetTimerOp 0 0).2.events =
      (newMockClock.newTimer 5 false).2.events ++
        (if (0 : Int) = 0 ∧
            (⟨0, .timerChan, 0, 5, .tsActive⟩ : Tickable).state = .tsActive
         then [⟨0, (newMockClock.newTimer 5 false).2.now⟩] else []) ∧
    ((newMockClock.newTimer 5 false).2.resetTimerOp 0 0).2.now =
      (newMockClock.newTimer 5 false).2.now :=
  claim_C4 (newMockClock.newTimer 5 false).2 0 ⟨0, .timerChan, 0, 5, .tsActive⟩ 0
    (by decide) (by decide) (by decide)

/-! Deadline context -/

/-- The `mockContext.cancel` is a complete no-op once the error is set. -/
theorem cancelCtx_noop (w : CtxWorld) (e : CtxErr) (h : w.ctx.err ≠ none) :
    cancelCtx w e = w := by
  have hs : w.ctx.err.isSome = true := Option.isSome_iff_ne_none.2 h
  simp [cancelCtx, hs]

/-- Claim C7: the mock deadline context error transitions at most once,
from nil to a terminal value; the first cancel closes the done channel
once, stops the bound timer (it is no longer Active) and releases it; any
subsequent cancel — including the deadline firing, which goes through the
same function — is a no-op that changes nothing. -/
theorem claim_C7 (w : CtxWorld) (e e2 : CtxErr) :
    (w.ctx.err = none →
      (cancelCtx w e).ctx.err = some e ∧
      (cancelCtx w e).ctx.doneCloses = w.ctx.doneCloses + 1 ∧
      (cancelCtx w e).ctx.timer = none ∧
      (∀ id t, w.ctx.timer = some id → w.clock.idCountAll id ≤ 1 →
        w.clock.findTick id = some t →
        ∃ t2, (cancelCtx w e).clock.findTick id = some t2 ∧
          t2.state ≠ .tsActive ∧ t2.next = t.next) ∧
      cancelCtx (cancelCtx w e) e2 = cancelCtx w e) ∧
    (w.ctx.err ≠ none → cancelCtx w e = w) := by
  constructor
  · intro herr
    refine ⟨?_, ?_, ?_, ?_, ?_⟩
    · simp [cancelCtx, herr]
    · simp [cancelCtx, herr]
    · simp [cancelCtx, herr]
    · intro id t htimer hu hfind
      by_cases hact : t.state = .tsActive
      · obtain ⟨h1, h2, h3, h4⟩ := stopTimerOp_active w.clock id t hu hfind hact
        refine ⟨{ t with state := .tsStopped }, ?_, ?_, rfl⟩
        · simp only [cancelCtx, herr, htimer, Option.isSome_none,
            Bool.false_eq_true, if_false]
          exact h2
        · intro hcon
          cases hcon
      · have hstop := stopTimerOp_inactive w.clock id t hfind hact
        refine ⟨t, ?_, hact, rfl⟩
        simp only [cancelCtx, herr, htimer, Option.isSome_none, Bool.false_eq_true,
          if_false, hstop]
        exact hfind
    · apply cancelCtx_noop
      have h1 : (cancelCtx w e).ctx.err = some e := by simp [cancelCtx, herr]
      rw [h1]
      intro hcon
      cases hcon
  · intro herr2
    exact cancelCtx_noop w e herr2

/-- Witness for C7 on a context with a live deadline timer. -/
theorem claim_C7_witness :
    (cancelCtx (newMockContext newMockClock 5) .canceled).ctx.err =
      some .canceled ∧
    (cancelCtx (newMockContext newMockClock 5) .canceled).ctx.doneCloses =
      (newMockContext newMockClock 5).ctx.doneCloses + 1 ∧
    (cancelCtx (newMockContext newMockClock 5) .canceled).ctx.timer = none ∧
    (∀ id t, (newMockContext newMockClock 5).ctx.timer = some id →
      (newMockContext newMockClock 5).clock.idCountAll id ≤ 1 →
      (newMockContext newMockClock 5).clock.findTick id = some t →
      ∃ t2, (cancelCtx (newMockContext newMockClock 5) .canceled).clock.findTick id =
          some t2 ∧ t2.state ≠ .tsActive ∧ t2.next = t.next) ∧
    cancelCtx (cancelCtx (newMockContext newMockClock 5) .canceled) .deadlineExceeded =
      cancelCtx (newMockContext newMockClock 5) .canceled :=
  (claim_C7 (newMockContext newMockClock 5) .canceled .deadlineExceeded).1 (by decide)

/-! Tick with a non-positive duration -/

/-- The drop-ticks loop never terminates once `next ≤ now` with a
non-positive period. -/
theorem dropLoop_divergent (p now : Int) (hp : p ≤ 0) :
    ∀ (fuel : Nat) (a next : Int), next ≤ now → dropLoop p now fuel a next = none := by
  intro fuel
  induction fuel with
  | zero =>
    intro a next h
    simp [dropLoop, h]
  | succ f ih =>
    intro a next h
    simp only [dropLoop, if_pos h]
    exact ih next (next + p) (by omega)

/-- After `newTicker` inserts the fresh tickable (under a not-yet-used id)
the registry resolves that id to it. -/
theorem newTicker_findTick_fresh (m : MockClock) (d : Int)
    (hfree : m.idCountAll m.nextTickerId = 0) :
    MockClock.findTick
      { m.activateTicker ⟨m.nextTickerId, .tickerK, d, m.now + max d 0, .tsActive⟩ with
        nextTickerId := m.nextTickerId + 1 } m.nextTickerId =
      some ⟨m.nextTickerId, .tickerK, d, m.now + max d 0, .tsActive⟩ := by
  have hua : idCount m.nextTickerId m.active = 0 := by
    unfold MockClock.idCountAll at hfree
    omega
  have ha_none : getTick m.nextTickerId m.active = none := getTick_eq_none.2 hua
  have ht : tickMatch m.nextTickerId
      (⟨m.nextTickerId, .tickerK, d, m.now + max d 0, .tsActive⟩ : Tickable) := by
    simp [tickMatch]
  have hsingle : getTick m.nextTickerId
      [(⟨m.nextTickerId, .tickerK, d, m.now + max d 0, .tsActive⟩ : Tickable)] =
      some ⟨m.nextTickerId, .tickerK, d, m.now + max d 0, .tsActive⟩ := by
    unfold getTick
    rw [List.find?_cons_of_pos _ ht]
  have happ : getTick m.nextTickerId
      (m.active ++ [⟨m.nextTickerId, .tickerK, d, m.now + max d 0, .tsActive⟩]) =
      some ⟨m.nextTickerId, .tickerK, d, m.now + max d 0, .tsActive⟩ := by
    rw [getTick_append, ha_none]
    exact hsingle
  have hone : idCount m.nextTickerId
      [(⟨m.nextTickerId, .tickerK, d, m.now + max d 0, .tsActive⟩ : Tickable)] = 1 := by
    rw [idCount_cons, if_pos ht]
    rfl
  have hcount : idCount m.nextTickerId
      (m.active ++ [⟨m.nextTickerId, .tickerK, d, m.now + max d 0, .tsActive⟩]) ≤ 1 := by
    rw [idCount_append, hua, hone]
  have hperm := sortTicks_perm
      (m.active ++ [⟨m.nextTickerId, .tickerK, d, m.now + max d 0, .tsActive⟩])
  have hcount2 : idCount m.nextTickerId
      (sortTicks (m.active ++
        [⟨m.nextTickerId, .tickerK, d, m.now + max d 0, .tsActive⟩])) ≤ 1 := by
    rw [idCount_perm _ hperm]
    exact hcount
  have hact : getTick m.nextTickerId
      (sortTicks (m.active ++
        [⟨m.nextTickerId, .tickerK, d, m.now + max d 0, .tsActive⟩])) =
      some ⟨m.nextTickerId, .tickerK, d, m.now + max d 0, .tsActive⟩ := by
    rw [getTick_perm_unique hperm hcount2]
    exact happ
  unfold MockClock.findTick MockClock.activateTicker
  dsimp only
  rw [hact]

/-- The `NewTicker(d ≤ 0)` on a clock that drops ticks never terminates: the
immediate tick enters the drop loop with a non-positive period. -/
theorem newTicker_nonpos_drop (m : MockClock) (fuel : Nat) (d : Int)
    (hd : d ≤ 0) (hdrop : m.dropsTicks = true)
    (hfree : m.idCountAll m.nextTickerId = 0) :
    m.newTicker fuel d = none := by
  have hmax : max d 0 = 0 := max_eq_right hd
  have hfind := newTicker_findTick_fresh m d hfree
  simp only [MockClock.activateTicker, hmax, add_zero, hdrop] at hfind
  have hlt : ¬ m.now < m.now + max d 0 := by
    rw [hmax]
    omega
  have hloop := dropLoop_divergent d m.now hd fuel (m.now + max d 0)
    (m.now + max d 0 + d) (by rw [hmax]; omega)
  simp only [hmax, add_zero] at hlt hloop
  simp [MockClock.newTicker, hd, MockClock.tickerTick, hfind, hdrop, hlt, hloop,
    MockClock.activateTicker]

/-- Claim C10 (amended): `Tick(d)` with `d ≤ 0` returns a nil channel and
leaves the clock completely unchanged, registering nothing; `NewTicker`
with the same non-positive duration registers a ticker and fires it
immediately at the current time — on a clock that does not drop ticks;
with drop-ticks enabled the immediate tick loops forever (the call never
returns). -/
theorem claim_C10 (m : MockClock) (fuel : Nat) (d : Int) (hd : d ≤ 0)
    (hfree : m.idCountAll m.nextTickerId = 0) :
    m.tickChan fuel d = some (none, m) ∧
    (m.dropsTicks = false →
      ∃ m2, m.newTicker fuel d = some (m.nextTickerId, m2) ∧
        m2.events = m.events ++ [⟨m.nextTickerId, m.now⟩]) ∧
    (m.dropsTicks = true → m.newTicker fuel d = none) := by
  have hmax : max d 0 = 0 := max_eq_right hd
  have hfind := newTicker_findTick_fresh m d hfree
  refine ⟨?_, ?_, ?_⟩
  · simp [MockClock.tickChan, hd]
  · intro hdrop
    have hlt : ¬ m.now < m.now + max d 0 := by
      rw [hmax]
      omega
    simp only [MockClock.newTicker, if_pos hd, MockClock.tickerTick, hfind, hdrop,
      hlt]
    simp [MockClock.activateTicker, MockClock.modifyTick, hmax, hdrop]
  · intro hdrop
    exact newTicker_nonpos_drop m fuel d hd hdrop hfree

/-- C10 counterexample for the parenthetical as stated: on a drop-ticks
clock, `NewTicker(0)` never returns (the model yields `none` for every
fuel), so it does not "fire immediately". -/
theorem claim_C10_cex :
    ¬ ∃ (fuel : Nat) (r : Nat × MockClock),
        (dropsTicksOpt newMockClock).newTicker fuel 0 = some r := by
  rintro ⟨fuel, r, hr⟩
  rw [newTicker_nonpos_drop (dropsTicksOpt newMockClock) fuel 0 (by norm_num) rfl
    (by decide)] at hr
  exact Option.noConfusion hr

/-- Witness for C10 at the default clock with `d = 0`. -/
theorem claim_C10_witness :
    newMockClock.tickChan 1 0 = some (none, newMockClock) ∧
    (newMockClock.dropsTicks = false →
      ∃ m2, newMockClock.newTicker 1 0 = some (newMockClock.nextTickerId, m2) ∧
        m2.events = newMockClock.events ++
          [⟨newMockClock.nextTickerId, newMockClock.now⟩]) ∧
    (newMockClock.dropsTicks = true → newMockClock.newTicker 1 0 = none) :=
  claim_C10 newMockClock 1 0 (by norm_num) (by decide)

/-! Registry ordering -/

/-- Claim C5 (amended): after every insert (`activateTicker`) or re-sort
the active list is ordered ascending by nextFireTime, and the sort is a
permutation of the appended list; the tie-break order among entries with
equal nextFireTime is not part of the sorting contract. -/
theorem claim_C5 (m : MockClock) (t : Tickable) (l : List Tickable) :
    sortedByNext ((m.activateTicker t).active) ∧
    sortedByNext (sortTicks l) ∧
    ((m.activateTicker t).active).Perm (m.active ++ [t]) := by
  refine ⟨?_, sortTicks_sorted l, ?_⟩
  · show sortedByNext (sortTicks (m.active ++ [t]))
    exact sortTicks_sorted _
  · show (sortTicks (m.active ++ [t])).Perm _
    exact sortTicks_perm _

/-- C5 counterexample: the contract of Go's `sort.Sort` (sorted
permutation, stability disclaimed) does not preserve the original order of
entries with equal nextFireTime: a tie-swapped output satisfies the
contract. -/
theorem claim_C5_cex :
    ¬ (∀ (l l2 : List Tickable), sortSortPost l l2 →
        ∀ a b : Tickable, a.next = b.next → List.Sublist [a, b] l →
          List.Sublist [a, b] l2) := by
  intro hcl
  have hpost : sortSortPost
      [⟨0, .tickerK, 1, 5, .tsActive⟩, ⟨1, .tickerK, 1, 5, .tsActive⟩]
      [⟨1, .tickerK, 1, 5, .tsActive⟩, ⟨0, .tickerK, 1, 5, .tsActive⟩] := by
    constructor
    · decide
    · unfold sortedByNext
      exact List.chain'_cons.2 ⟨by norm_num, List.chain'_singleton _⟩
  have h := hcl
    [⟨0, .tickerK, 1, 5, .tsActive⟩, ⟨1, .tickerK, 1, 5, .tsActive⟩]
    [⟨1, .tickerK, 1, 5, .tsActive⟩, ⟨0, .tickerK, 1, 5, .tsActive⟩]
    hpost ⟨0, .tickerK, 1, 5, .tsActive⟩ ⟨1, .tickerK, 1, 5, .tsActive⟩
    rfl (by decide)
  exact absurd h (by decide)

/-! Uninitialized wrappers -/

/-- Claim C8 (amended): `Reset` on an uninitialized Timer or Ticker wrapper
panics with the reset-on-uninitialized condition before touching any
state, and `tick` through an absent (nil) backing reference returns false;
`Stop` on an uninitialized wrapper, however, performs no such check — it
dereferences the nil embedded stdlib value (a runtime nil-pointer panic,
not the reset-on-uninitialized condition). -/
theorem claim_C8 (m : MockClock) (d : Int) (w : TimerW) (w2 : TickerW)
    (hw : w.initialised = false) (hw2 : w2.initialised = false) (now : Int) :
    TimerW.Reset m w d = (.panicked .resetCalledOnUninitialized, m) ∧
    TickerW.Reset m w2 d = (.panicked .resetCalledOnUninitialized, m) ∧
    m.timerTickRef none now = (false, m) ∧
    (∀ fuel, m.tickerTickRef fuel none now = some (false, m)) ∧
    TimerW.Stop m uninitTimer = (.nilDeref, m) ∧
    TickerW.Stop m uninitTicker = (.nilDeref, m) := by
  refine ⟨?_, ?_, rfl, fun fuel => rfl, rfl, rfl⟩
  · simp [TimerW.Reset, hw]
  · simp [TickerW.Reset, hw2]

/-- C8 counterexample: `Stop` on the uninitialized zero-value Timer does
not fail with the reset-on-uninitialized condition (it hits a nil-pointer
dereference on the embedded stdlib timer instead). -/
theorem claim_C8_cex :
    TimerW.Stop newMockClock uninitTimer = (.nilDeref, newMockClock) ∧
    TimerW.Stop newMockClock uninitTimer ≠
      (.panicked .resetCalledOnUninitialized, newMockClock) ∧
    TickerW.Stop newMockClock uninitTicker ≠
      (.panicked .resetCalledOnUninitialized, newMockClock) := by
  refine ⟨rfl, ?_, ?_⟩
  · decide
  · decide

/-- Witness for C8 at the zero-value wrappers. -/
theorem claim_C8_witness :
    TimerW.Reset newMockClock uninitTimer 3 =
      (.panicked .resetCalledOnUninitialized, newMockClock) ∧
    TickerW.Reset newMockClock uninitTicker 3 =
      (.panicked .resetCalledOnUninitialized, newMockClock) ∧
    newMockClock.timerTickRef none 7 = (false, newMockClock) ∧
    (∀ fuel, newMockClock.tickerTickRef fuel none 7 = some (false, newMockClock)) ∧
    TimerW.Stop newMockClock uninitTimer = (.nilDeref, newMockClock) ∧
    TickerW.Stop newMockClock uninitTicker = (.nilDeref, newMockClock) :=
  claim_C8 newMockClock 3 uninitTimer uninitTicker rfl rfl 7

end BlugnuTime
